import Mathlib

/-!
Verification of two kernel components against their specification:

* the Intel Hardware Feedback Interface processor
  (drivers/thermal/intel/intel_hfi.c): task-classification debouncer,
  thermal-event handler, update-worker batching, and IPC score query;
* the zblock pool allocator (mm/zblock.c): handle encoding, size-class
  selection, alloc/free/map/unmap, reclaim, and the free-slot counting
  invariant.

The embedding is shallow: C structs become Lean structures, machine
integers become `Nat` (with explicit `% 2 ^ w` where the source relies on
a fixed width), pointers to blocks become the block's page-aligned base
address, and the intrusive doubly-linked list of blocks becomes a Lean
list with the most recently inserted block at the head (its tail is the
oldest block, as in the C list).  Code paths that dereference an invalid
pointer are modelled as `none` / a distinguished undefined-behaviour
outcome.  All definitions are executable and all loops are structural
recursions on an explicit counter that mirrors the C loop bound.
-/

/-! ### HFI task classifier (`debounce_and_update_class`) -/

/-- The classification fields kept on a task: `ipcc` is the committed
scheduler-facing class (0 = unclassified), `ipcc_tmp` the last accepted
observation, `ipcc_cntr` the debounce counter. -/
structure TaskIpcc where
  ipcc : Nat
  ipcc_tmp : Nat
  ipcc_cntr : Nat
  deriving DecidableEq, Repr

def CLASS_DEBOUNCER_SKIPS : Nat := 4

/-- `debounce_and_update_class` from intel_hfi.c.  The local
`debounce_skip` is a `u16` in the source, hence the `% 65536`; the stored
counter is modelled at the same width.  Only counter values below
`CLASS_DEBOUNCER_SKIPS` are reachable from a fresh task, where every
integer width agrees with `Nat`. -/
def debounce_and_update_class (p : TaskIpcc) (new_ipcc : Nat) : TaskIpcc :=
  if p.ipcc_tmp ≠ new_ipcc then
    { p with ipcc_cntr := 1, ipcc_tmp := new_ipcc }
  else
    let debounce_skip := (p.ipcc_cntr + 1) % 65536
    if debounce_skip < CLASS_DEBOUNCER_SKIPS then
      { p with ipcc_cntr := (p.ipcc_cntr + 1) % 65536, ipcc_tmp := new_ipcc }
    else
      { p with ipcc := new_ipcc, ipcc_tmp := new_ipcc }

/-- Modelled from the spec: the debounce step as the specification words
it — "Else: increment counter; if counter now ≥ CLASS_DEBOUNCER_SKIPS,
commit task.ipcc = obs.  Update task.ipcc_tmp = obs in either branch."
Used only to compare the claimed step against the source's step. -/
def debounce_spec_step (p : TaskIpcc) (obs : Nat) : TaskIpcc :=
  if obs ≠ p.ipcc_tmp then
    { p with ipcc_cntr := 1, ipcc_tmp := obs }
  else
    let cntr := p.ipcc_cntr + 1
    if CLASS_DEBOUNCER_SKIPS ≤ cntr then
      { p with ipcc := obs, ipcc_cntr := cntr, ipcc_tmp := obs }
    else
      { p with ipcc_cntr := cntr, ipcc_tmp := obs }

/-- Iterated classifier invocations over a list of accepted observations
(each observation is `hw_class + 1` as passed by `intel_hfi_update_ipcc`). -/
def debounceRun (p : TaskIpcc) (l : List Nat) : TaskIpcc :=
  l.foldl debounce_and_update_class p

/-- History invariant of the debouncer: the counter is capped at
`CLASS_DEBOUNCER_SKIPS - 1`, never exceeds the number of observations
seen so far, and the last `ipcc_cntr` observations all equal `ipcc_tmp`. -/
def debounceInv (hist : List Nat) (p : TaskIpcc) : Prop :=
  p.ipcc_cntr ≤ 3 ∧ p.ipcc_cntr ≤ hist.length ∧
  ∀ j, hist.length - p.ipcc_cntr ≤ j → j < hist.length → hist.getD j 0 = p.ipcc_tmp

/-! ### HFI event handler (`intel_hfi_process_event`) -/

/-- The two tables of an HFI instance, as byte lists.  The first 8 bytes
of `local_table` are the mirror's timestamp (the `timestamp` member of
the union in `struct hfi_instance`); the first 8 bytes of `hw_table` are
the hardware's current timestamp. -/
structure HfiInstanceState where
  local_table : List Nat
  hw_table : List Nat
  deriving DecidableEq, Repr

/-- Result of one `intel_hfi_process_event` invocation: the instance
state afterwards, the value written back to the package thermal status
MSR (`none` when nothing is acknowledged), and whether `update_work` was
queued. -/
structure HfiEventOutcome where
  inst : HfiInstanceState
  acked_status : Option Nat
  work_scheduled : Bool
  deriving DecidableEq, Repr

def THERM_STATUS_CLEAR_PKG_MASK : Nat :=
  2 ^ 1 + 2 ^ 3 + 2 ^ 5 + 2 ^ 7 + 2 ^ 9 + 2 ^ 11 + 2 ^ 26

def PACKAGE_THERM_STATUS_HFI_UPDATED : Nat := 2 ^ 26

/-- `intel_hfi_process_event` from intel_hfi.c, in the sequential case
where the per-CPU info and instance exist and the `event_lock` trylock
succeeds (the contended path exits without touching any state).  The
`u64` timestamp comparison is modelled by comparing the first 8 bytes;
the `memcpy` of `nr_table_pages << PAGE_SHIFT` bytes copies the whole
hardware table into the mirror.  The acknowledgement write is
`pkg_status & THERM_STATUS_CLEAR_PKG_MASK & ~PACKAGE_THERM_STATUS_HFI_UPDATED`
on a 64-bit register. -/
def intel_hfi_process_event (inst : HfiInstanceState)
    (pkg_therm_status_msr_val : Nat) : HfiEventOutcome :=
  if pkg_therm_status_msr_val = 0 then ⟨inst, none, false⟩
  else
    let new_timestamp := inst.hw_table.take 8
    if inst.local_table.take 8 = new_timestamp then ⟨inst, none, false⟩
    else
      ⟨{ inst with local_table := inst.hw_table },
       some (pkg_therm_status_msr_val &&&
         (THERM_STATUS_CLEAR_PKG_MASK &&&
           (2 ^ 64 - 1 - PACKAGE_THERM_STATUS_HFI_UPDATED))),
       true⟩

/-! ### HFI update worker (`update_capabilities`) -/

def HFI_MAX_THERM_NOTIFY_COUNT : Nat := 16

/-- The chunked emission loop of `update_capabilities`: `rest` is the
number of capability records not yet emitted (`cpu_count - i` in the
source, where `i` advances by `HFI_MAX_THERM_NOTIFY_COUNT` per full
chunk).  The structural `fuel` argument bounds the iteration count; it is
initialised to the record count, which always suffices because each
iteration consumes `HFI_MAX_THERM_NOTIFY_COUNT ≥ 1` records. -/
def capability_chunks : Nat → Nat → List Nat
  | 0, rest => if rest ≠ 0 then [rest] else []
  | fuel + 1, rest =>
    if HFI_MAX_THERM_NOTIFY_COUNT ≤ rest then
      HFI_MAX_THERM_NOTIFY_COUNT ::
        capability_chunks fuel (rest - HFI_MAX_THERM_NOTIFY_COUNT)
    else if rest ≠ 0 then [rest] else []

/-- The sequence of `thermal_genl_cpu_capability_event` call counts made
by one run of `update_capabilities` on an instance whose cpumask has
`cpu_count` members (`kcalloc` assumed to succeed; on failure the worker
emits nothing, like the `cpu_count = 0` path). -/
def update_capabilities_emits (cpu_count : Nat) : List Nat :=
  if cpu_count = 0 then []
  else if cpu_count < HFI_MAX_THERM_NOTIFY_COUNT then [cpu_count]
  else capability_chunks cpu_count cpu_count

/-! ### HFI IPC score query (`intel_hfi_get_ipcc_score`) -/

/-- `IPC_CLASS_UNCLASSIFIED` is declared in the scheduler headers outside
this repository; the spec fixes it as the sentinel 0. -/
def IPC_CLASS_UNCLASSIFIED : Nat := 0

def HFI_UNCLASSIFIED_DEFAULT : Nat := 1

inductive HfiErr where
  | einval
  | enodev
  deriving DecidableEq, Repr

/-- Process-wide state read by the score query: `nr_cpu_ids`, the parsed
`hfi_features.nr_classes`, and the per-CPU score arrays
(`hfi_ipcc_scores`, `none` when the per-CPU allocation is absent). -/
structure IpccScoreState where
  nr_cpu_ids : Nat
  nr_classes : Nat
  hfi_ipcc_scores : Option (Nat → Nat → Int)

/-- `intel_hfi_get_ipcc_score` from intel_hfi.c.  `cpu` is a C `int`,
hence modelled as `Int`; the score array is indexed by the 0-based HFI
class `ipcc - 1` after substituting `HFI_UNCLASSIFIED_DEFAULT` for the
unclassified sentinel. -/
def intel_hfi_get_ipcc_score (st : IpccScoreState) (ipcc : Nat) (cpu : Int) :
    Except HfiErr Int :=
  if cpu < 0 ∨ (st.nr_cpu_ids : Int) ≤ cpu then .error .einval
  else
    let ipcc1 := if ipcc = IPC_CLASS_UNCLASSIFIED then HFI_UNCLASSIFIED_DEFAULT else ipcc
    let hfi_class := ipcc1 - 1
    if st.nr_classes ≤ hfi_class then .error .einval
    else
      match st.hfi_ipcc_scores with
      | none => .error .enodev
      | some scores => .ok (scores cpu.toNat hfi_class)

/-! ### zblock: constants and the block descriptor schedule (mm/zblock.c) -/

def PAGE_SIZE : Nat := 4096

def SLOT_BITS : Nat := 5

def MAX_SLOTS : Nat := 2 ^ SLOT_BITS

def BLOCK_CACHE_SIZE : Nat := 32

/-- `sizeof(struct zblock_block)` on x86-64 with a 4-byte `spinlock_t`:
lock (4) + padding (4) + list_head (16) + slot_info (32) + free_slots (4)
+ under_reclaim (1) + tail padding to 8-byte alignment = 64 bytes. -/
def ZBLOCK_HEADER_SIZE : Nat := 64

def BLOCK_DATA_SIZE (order : Nat) : Nat :=
  (PAGE_SIZE <<< order) - ZBLOCK_HEADER_SIZE

/-- `SLOT_SIZE(nslots, order)`: the data size divided by the slot count,
rounded down to `sizeof(long)` = 8 bytes. -/
def SLOT_SIZE (nslots order : Nat) : Nat :=
  BLOCK_DATA_SIZE order / nslots / 8 * 8

structure BlockDescEntry where
  slot_size : Nat
  slots_per_block : Nat
  order : Nat
  deriving DecidableEq, Repr

/-- The immutable `block_desc[]` schedule. -/
def block_desc : List BlockDescEntry := [
  ⟨SLOT_SIZE 32 0, 32, 0⟩, ⟨SLOT_SIZE 22 0, 22, 0⟩, ⟨SLOT_SIZE 17 0, 17, 0⟩,
  ⟨SLOT_SIZE 13 0, 13, 0⟩, ⟨SLOT_SIZE 11 0, 11, 0⟩, ⟨SLOT_SIZE 9 0, 9, 0⟩,
  ⟨SLOT_SIZE 8 0, 8, 0⟩,
  ⟨SLOT_SIZE 14 1, 14, 1⟩, ⟨SLOT_SIZE 12 1, 12, 1⟩, ⟨SLOT_SIZE 11 1, 11, 1⟩,
  ⟨SLOT_SIZE 10 1, 10, 1⟩, ⟨SLOT_SIZE 9 1, 9, 1⟩, ⟨SLOT_SIZE 8 1, 8, 1⟩,
  ⟨SLOT_SIZE 15 2, 15, 2⟩, ⟨SLOT_SIZE 14 2, 14, 2⟩, ⟨SLOT_SIZE 13 2, 13, 2⟩,
  ⟨SLOT_SIZE 12 2, 12, 2⟩, ⟨SLOT_SIZE 11 2, 11, 2⟩, ⟨SLOT_SIZE 10 2, 10, 2⟩,
  ⟨SLOT_SIZE 9 2, 9, 2⟩, ⟨SLOT_SIZE 8 2, 8, 2⟩,
  ⟨SLOT_SIZE 15 3, 15, 3⟩, ⟨SLOT_SIZE 14 3, 14, 3⟩, ⟨SLOT_SIZE 13 3, 13, 3⟩,
  ⟨SLOT_SIZE 12 3, 12, 3⟩, ⟨SLOT_SIZE 11 3, 11, 3⟩, ⟨SLOT_SIZE 10 3, 10, 3⟩,
  ⟨SLOT_SIZE 9 3, 9, 3⟩, ⟨SLOT_SIZE 7 3, 7, 3⟩]

def slot_size_of (bt : Nat) : Nat := (block_desc.getD bt ⟨0, 0, 0⟩).slot_size

def slots_per_block_of (bt : Nat) : Nat :=
  (block_desc.getD bt ⟨0, 0, 0⟩).slots_per_block

def order_of (bt : Nat) : Nat := (block_desc.getD bt ⟨0, 0, 0⟩).order

/-! ### zblock: data model -/

inductive SlotState where
  | free
  | occupied
  | mapped
  | unmapped
  deriving DecidableEq, Repr

/-- `struct zblock_block` metadata.  `slot_info` models the first
`slots_per_block` entries of the source's `u8 slot_info[MAX_SLOTS]`
array; every loop and every valid handle in the source stays within this
prefix, and the remaining bytes are never initialised or read. -/
structure ZblockBlock where
  slot_info : List SlotState
  free_slots : Nat
  under_reclaim : Bool
  deriving DecidableEq, Repr

/-- `struct block_list`.  A block pointer is modelled by the block's
page-aligned base address; `blocks` is the intrusive list with the most
recently added block at the head (so the list tail is the oldest block),
and `block_cache` is the fixed-size cache of base addresses. -/
structure BlockList where
  blocks : List (Nat × ZblockBlock)
  block_cache : List (Option Nat)
  block_count : Nat
  deriving DecidableEq, Repr

/-- `struct zblock_pool`.  `alloc_flag` is the CAS allocation gate; in
this sequential model the gate is always free, so the CAS of
`zblock_alloc` succeeds on the first try and the flag is restored to 0 by
the time any operation returns.  `next_base` models the page allocator:
the page-aligned address the next `__get_free_pages` call returns. -/
structure ZblockPool where
  block_lists : List BlockList
  alloc_flag : Bool
  next_base : Nat
  deriving DecidableEq, Repr

def emptyBlockList : BlockList :=
  ⟨[], List.replicate BLOCK_CACHE_SIZE none, 0⟩

/-- `zblock_create_pool`: every list empty, every cache entry NULL,
every count zero.  The initial `next_base` is an arbitrary page-aligned
nonzero address. -/
def zblock_create_pool : ZblockPool :=
  { block_lists := List.replicate block_desc.length emptyBlockList,
    alloc_flag := false,
    next_base := PAGE_SIZE }

/-- Dereference a block pointer: find the block with base address `base`
in the list. -/
def findBlock (bl : BlockList) (base : Nat) : Option ZblockBlock :=
  (bl.blocks.find? (fun p => p.1 == base)).map (fun p => p.2)

/-- Write through a block pointer: replace the block at base address
`base` by `b'`. -/
def updateBlock (bl : BlockList) (base : Nat) (b' : ZblockBlock) : BlockList :=
  { bl with blocks := bl.blocks.map (fun p => if p.1 = base then (p.1, b') else p) }

def listAt (pool : ZblockPool) (bt : Nat) : BlockList :=
  pool.block_lists.getD bt emptyBlockList

def setListAt (pool : ZblockPool) (bt : Nat) (bl : BlockList) : ZblockPool :=
  { pool with block_lists := pool.block_lists.set bt bl }

/-- Number of slots in state `FREE`. -/
def countFree : List SlotState → Nat
  | [] => 0
  | s :: rest => (if s = SlotState.free then 1 else 0) + countFree rest

/-! ### zblock: handle encoding -/

/-- `metadata_to_handle`: `(unsigned long)block + (block_type << SLOT_BITS) + slot`. -/
def metadata_to_handle (block : Nat) (block_type : Nat) (slot : Nat) : Nat :=
  block + block_type * MAX_SLOTS + slot

/-- `handle_to_metadata`, returning `(block, block_type, slot)`.  On the
unsigned word: `handle & PAGE_MASK = handle - handle % PAGE_SIZE`,
`(handle & (PAGE_SIZE - 1)) >> SLOT_BITS = handle % PAGE_SIZE / MAX_SLOTS`,
and `handle & SLOT_MASK = handle % MAX_SLOTS`. -/
def handle_to_metadata (handle : Nat) : Nat × Nat × Nat :=
  (handle - handle % PAGE_SIZE, handle % PAGE_SIZE / MAX_SLOTS, handle % MAX_SLOTS)

/-! ### zblock: cache helpers -/

/-- `is_in_cache`: the cache index holding `block`, if any (`-1` in the
source becomes `none`). -/
def is_in_cache (base : Nat) (bl : BlockList) : Option Nat :=
  bl.block_cache.findIdx? (fun e => e == some base)

/-- The scan of `cache_insert_block`: fill the first NULL or
zero-free-slots entry, otherwise overwrite the entry whose block has the
fewest free slots.  `fuel = BLOCK_CACHE_SIZE - i` makes the `for` loop a
structural recursion.  `min_index` starts at 0, standing for the
source's uninitialised local (read only when every cache entry points to
a block with `MAX_SLOTS` free slots, which never happens for live
caches).  A cache entry always references a block of the same list in
the sequential model, so the lookup-failure branch is unreachable. -/
def cache_insert_go (bl : BlockList) (base : Nat) :
    Nat → Nat → Nat → Nat → List (Option Nat)
  | 0, _, _, min_index => bl.block_cache.set min_index (some base)
  | fuel + 1, i, min_free_slots, min_index =>
    match bl.block_cache.getD i none with
    | none => bl.block_cache.set i (some base)
    | some e =>
      match findBlock bl e with
      | none => bl.block_cache.set i (some base)
      | some eb =>
        if eb.free_slots = 0 then bl.block_cache.set i (some base)
        else if eb.free_slots < min_free_slots then
          cache_insert_go bl base fuel (i + 1) eb.free_slots i
        else
          cache_insert_go bl base fuel (i + 1) min_free_slots min_index

/-- `cache_insert_block`. -/
def cache_insert_block (bl : BlockList) (base : Nat) : BlockList :=
  { bl with block_cache := cache_insert_go bl base BLOCK_CACHE_SIZE 0 MAX_SLOTS 0 }

/-- `cache_find_block`: the first cache entry whose block has a nonzero
free-slot count, together with that block. -/
def cache_find_block (bl : BlockList) : Option (Nat × ZblockBlock) :=
  bl.block_cache.findSome? (fun e =>
    match e with
    | some base =>
      match findBlock bl base with
      | some b => if b.free_slots ≠ 0 then some (base, b) else none
      | none => none
    | none => none)

/-! ### zblock: allocation -/

inductive ZbErr where
  | einval
  | enospc
  | enomem
  | eagain
  deriving DecidableEq, Repr

/-- The size-class search loop of `zblock_alloc`: first `block_type`
with `size ≤ block_desc[block_type].slot_size`; equals
`block_desc.length` when no entry fits, exactly as the C loop leaves its
counter. -/
def find_block_type (size : Nat) : Nat :=
  block_desc.findIdx (fun d => decide (size ≤ d.slot_size))

/-- The first-FREE scan of `zblock_alloc` (`for slot = 0; ...`); returns
`slots_per_block` when no slot is free, exactly as the C loop leaves its
counter. -/
def findFreeSlot (l : List SlotState) : Nat :=
  l.findIdx (fun s => s == SlotState.free)

/-- The `found:` tail of `zblock_alloc`: decrement `free_slots`, scan
for the first `FREE` slot, mark it `OCCUPIED`, and encode the handle.
`b` is the block `base` points at. -/
def alloc_slot_in (pool : ZblockPool) (bt base : Nat) (b : ZblockBlock) :
    Except ZbErr Nat × ZblockPool :=
  let slot := findFreeSlot b.slot_info
  let b' := { b with free_slots := b.free_slots - 1,
                     slot_info := b.slot_info.set slot SlotState.occupied }
  (Except.ok (metadata_to_handle base bt slot),
   setListAt pool bt (updateBlock (listAt pool bt) base b'))

/-- `alloc_block`: get fresh pages from the page allocator, initialise
the header (all slots `FREE`, `free_slots = slots_per_block`,
`under_reclaim = false`), push the block at the list head, insert it in
the cache, bump `block_count`.  Returns the new block's base, its
initial state, and the updated pool. -/
def alloc_block (pool : ZblockPool) (bt : Nat) : Nat × ZblockBlock × ZblockPool :=
  let base := pool.next_base
  let spb := slots_per_block_of bt
  let nb : ZblockBlock := ⟨List.replicate spb SlotState.free, spb, false⟩
  let bl := listAt pool bt
  let bl1 := { bl with blocks := (base, nb) :: bl.blocks }
  let bl2 := cache_insert_block bl1 base
  let bl3 := { bl2 with block_count := bl2.block_count + 1 }
  (base, nb,
   { setListAt pool bt bl3 with next_base := base + (PAGE_SIZE <<< order_of bt) })

/-- `zblock_alloc`.  `can_grow` models whether `__get_free_pages`
succeeds; the `alloc_flag` CAS retry loop collapses because the gate is
always free in the sequential model. -/
def zblock_alloc (pool : ZblockPool) (size : Nat) (can_grow : Bool) :
    Except ZbErr Nat × ZblockPool :=
  if size = 0 then (Except.error ZbErr.einval, pool)
  else if PAGE_SIZE < size then (Except.error ZbErr.enospc, pool)
  else
    let bt := find_block_type size
    match cache_find_block (listAt pool bt) with
    | some (base, b) => alloc_slot_in pool bt base b
    | none =>
      if can_grow then
        let r := alloc_block pool bt
        alloc_slot_in r.2.2 bt r.1 r.2.1
      else (Except.error ZbErr.enomem, pool)

/-! ### zblock: free, map, unmap -/

/-- `zblock_free`.  `none` models the undefined behaviour of passing a
handle whose decoded block pointer is not a block of the pool.  The C
removes exactly one list node in the delete branch; block base addresses
are distinct in C, so the `filter` removes that one node. -/
def zblock_free (pool : ZblockPool) (handle : Nat) : Option ZblockPool :=
  let m := handle_to_metadata handle
  let base := m.1
  let bt := m.2.1
  let slot := m.2.2
  let bl := listAt pool bt
  match findBlock bl base with
  | none => none
  | some b =>
    if b.under_reclaim then some pool
    else
      let i := is_in_cache base bl
      let b1 := { b with free_slots := b.free_slots + 1 }
      let bl1 := updateBlock bl base b1
      if b1.free_slots = slots_per_block_of bt then
        some (setListAt pool bt
          { blocks := bl1.blocks.filter (fun p => !(p.1 == base)),
            block_cache := (match i with
              | some idx => bl1.block_cache.set idx none
              | none => bl1.block_cache),
            block_count := bl1.block_count - 1 })
      else
        let bl2 := match i with
          | none => cache_insert_block bl1 base
          | some _ => bl1
        some (setListAt pool bt
          (updateBlock bl2 base
            { b1 with slot_info := b1.slot_info.set slot SlotState.free }))

/-- `zblock_map`: mark the slot `MAPPED`.  The returned payload pointer
(`(void *)(block + 1) + slot * slot_size`) is address arithmetic outside
the pool state and is not modelled. -/
def zblock_map (pool : ZblockPool) (handle : Nat) : Option ZblockPool :=
  let m := handle_to_metadata handle
  let bl := listAt pool m.2.1
  match findBlock bl m.1 with
  | none => none
  | some b =>
    some (setListAt pool m.2.1
      (updateBlock bl m.1
        { b with slot_info := b.slot_info.set m.2.2 SlotState.mapped }))

/-- `zblock_unmap`: mark the slot `UNMAPPED`. -/
def zblock_unmap (pool : ZblockPool) (handle : Nat) : Option ZblockPool :=
  let m := handle_to_metadata handle
  let bl := listAt pool m.2.1
  match findBlock bl m.1 with
  | none => none
  | some b =>
    some (setListAt pool m.2.1
      (updateBlock bl m.1
        { b with slot_info := b.slot_info.set m.2.2 SlotState.unmapped }))

/-! ### zblock: reclaim -/

instance {ε α : Type} [DecidableEq ε] [DecidableEq α] : DecidableEq (Except ε α) :=
  fun x y =>
    match x, y with
    | Except.ok a, Except.ok b =>
      if h : a = b then isTrue (by rw [h]) else isFalse (by simp [h])
    | Except.error a, Except.error b =>
      if h : a = b then isTrue (by rw [h]) else isFalse (by simp [h])
    | Except.ok _, Except.error _ => isFalse (by simp)
    | Except.error _, Except.ok _ => isFalse (by simp)

/-- Outcome of `zblock_reclaim_block`: `ub` marks the path on which the
source dereferences an invalid pointer. -/
inductive ReclaimOutcome where
  | ub
  | ok (ret : Except ZbErr Nat) (pool : ZblockPool)
  deriving DecidableEq, Repr

/-- The slot-eviction loop of `zblock_reclaim_block`: for each slot in
state `OCCUPIED` or `UNMAPPED`, call the eviction callback with the
slot's handle; on success mark the slot `FREE` and bump `free_slots` and
the reclaimed count, on failure break out of the loop.  `fuel`, which
starts at `slots_per_block`, makes the `for` loop structural
(`slot + fuel = slots_per_block` throughout).  The callback is modelled
as a pure success predicate on handles; re-entry into the pool is
outside the model. -/
def evict_slots (evict : Nat → Bool) (bt base : Nat) :
    Nat → Nat → ZblockBlock → Nat → ZblockBlock × Nat
  | _, 0, b, reclaimed => (b, reclaimed)
  | slot, fuel + 1, b, reclaimed =>
    if b.slot_info.getD slot SlotState.free = SlotState.occupied ∨
       b.slot_info.getD slot SlotState.free = SlotState.unmapped then
      if evict (metadata_to_handle base bt slot) then
        evict_slots evict bt base (slot + 1) fuel
          { b with slot_info := b.slot_info.set slot SlotState.free,
                   free_slots := b.free_slots + 1 }
          (reclaimed + 1)
      else (b, reclaimed)
    else evict_slots evict bt base (slot + 1) fuel b reclaimed

/-- The descending `block_type` loop of `zblock_reclaim_block`; the
argument `k` is `block_type + 1`, so `k = 0` is loop exit (`-EINVAL`).
On an empty list, `list_last_entry` in the source yields a non-NULL
pointer computed from the list head sentinel itself, the `if (!block)`
check cannot fire, and the subsequent accesses (`is_in_cache`,
`block->under_reclaim = true`) go through that invalid pointer: this
path is `ReclaimOutcome.ub`. -/
def zblock_reclaim_iter (pool : ZblockPool) (evict : Nat → Bool) :
    Nat → ReclaimOutcome
  | 0 => ReclaimOutcome.ok (Except.error ZbErr.einval) pool
  | k + 1 =>
    let bt := k
    let bl := listAt pool bt
    match bl.blocks.getLast? with
    | none => ReclaimOutcome.ub
    | some pr =>
      let base := pr.1
      match is_in_cache base bl with
      | some _ => zblock_reclaim_iter pool evict k
      | none =>
        let b0 := { pr.2 with under_reclaim := true }
        let er := evict_slots evict bt base 0 (slots_per_block_of bt) b0 0
        let b' := er.1
        let reclaimed := er.2
        let ret := if reclaimed ≠ 0 then Except.ok reclaimed
                   else Except.error ZbErr.eagain
        if b'.free_slots ≠ slots_per_block_of bt then
          let bl2 := cache_insert_block
            (updateBlock bl base { b' with under_reclaim := false }) base
          ReclaimOutcome.ok ret (setListAt pool bt bl2)
        else
          let bl1 := updateBlock bl base b'
          ReclaimOutcome.ok ret (setListAt pool bt
            { blocks := bl1.blocks.filter (fun p => !(p.1 == base)),
              block_cache := bl1.block_cache,
              block_count := bl1.block_count - 1 })

/-- `zblock_reclaim_block`: iterate from the worst-compression list
(`ARRAY_SIZE(block_desc) - 1`) down to 0. -/
def zblock_reclaim_block (pool : ZblockPool) (evict : Nat → Bool) : ReclaimOutcome :=
  zblock_reclaim_iter pool evict block_desc.length

/-! ### zblock: pool operations and the counting invariant -/

/-- One completed pool operation. -/
inductive PoolOp where
  | alloc (size : Nat) (can_grow : Bool)
  | free (handle : Nat)
  | map (handle : Nat)
  | unmap (handle : Nat)
  | reclaim (evict : Nat → Bool)

/-- Apply one pool operation; `none` when the operation runs into
undefined behaviour. -/
def applyOp (pool : ZblockPool) : PoolOp → Option ZblockPool
  | PoolOp.alloc size g => some (zblock_alloc pool size g).2
  | PoolOp.free h => zblock_free pool h
  | PoolOp.map h => zblock_map pool h
  | PoolOp.unmap h => zblock_unmap pool h
  | PoolOp.reclaim ev =>
    match zblock_reclaim_block pool ev with
    | ReclaimOutcome.ub => none
    | ReclaimOutcome.ok _ p => some p

/-- ZB-I1 for one block: `free_slots` equals the number of `FREE`
entries of `slot_info` (whose modelled length is `slots_per_block`). -/
abbrev blockWf (bt : Nat) (b : ZblockBlock) : Prop :=
  b.slot_info.length = slots_per_block_of bt ∧ b.free_slots = countFree b.slot_info

/-- ZB-I1 for a whole pool. -/
abbrev poolWf (pool : ZblockPool) : Prop :=
  pool.block_lists.length = block_desc.length ∧
  ∀ bt, bt < block_desc.length → ∀ p ∈ (listAt pool bt).blocks, blockWf bt p.2

/-- A handle addressing a previously allocated (non-`FREE`) slot of a
block present in the pool. -/
def validHandle (pool : ZblockPool) (handle : Nat) : Prop :=
  let m := handle_to_metadata handle
  m.2.1 < block_desc.length ∧
  ∃ b, findBlock (listAt pool m.2.1) m.1 = some b ∧
    m.2.2 < b.slot_info.length ∧
    b.slot_info.getD m.2.2 SlotState.free ≠ SlotState.free

/-- Operation preconditions: `free`, `map` and `unmap` take a valid
handle; `alloc` and `reclaim` take any input. -/
def validOp (pool : ZblockPool) : PoolOp → Prop
  | PoolOp.alloc _ _ => True
  | PoolOp.free h => validHandle pool h
  | PoolOp.map h => validHandle pool h
  | PoolOp.unmap h => validHandle pool h
  | PoolOp.reclaim _ => True

/-! ### Concrete fixtures used to evaluate the theorems -/

/-- A fully occupied type-0 block currently being reclaimed. -/
def reclaimingBlock : ZblockBlock :=
  ⟨List.replicate 32 SlotState.occupied, 0, true⟩

/-- A pool whose type-0 list holds one block under reclaim. -/
def reclaimingPool : ZblockPool :=
  { block_lists :=
      ⟨[(4096, reclaimingBlock)], List.replicate BLOCK_CACHE_SIZE none, 1⟩ ::
        List.replicate 28 emptyBlockList,
    alloc_flag := false,
    next_base := 8192 }

/-- A type-28 block (7 slots) with one occupied slot. -/
def sampleBlock : ZblockBlock :=
  ⟨[SlotState.occupied, SlotState.free, SlotState.free, SlotState.free,
    SlotState.free, SlotState.free, SlotState.free], 6, false⟩

/-! ## Helper lemmas -/

theorem getD_append_lt {α : Type} (l : List α) (a d : α) (j : Nat) (h : j < l.length) :
    (l ++ [a]).getD j d = l.getD j d := by
  rw [List.getD_eq_getElem?_getD, List.getD_eq_getElem?_getD, List.getElem?_append_left h]

theorem getD_append_len {α : Type} (l : List α) (a d : α) :
    (l ++ [a]).getD l.length d = a := by
  rw [List.getD_eq_getElem?_getD, List.getElem?_concat_length]
  rfl

theorem debounceInv_step (hist : List Nat) (p : TaskIpcc) (a : Nat)
    (h : debounceInv hist p) :
    debounceInv (hist ++ [a]) (debounce_and_update_class p a) := by
  obtain ⟨hc3, hcl, hlast⟩ := h
  have hlen : (hist ++ [a]).length = hist.length + 1 := by simp
  unfold debounceInv debounce_and_update_class CLASS_DEBOUNCER_SKIPS at *
  by_cases hne : p.ipcc_tmp ≠ a
  · rw [if_pos hne]
    refine ⟨?_, ?_, ?_⟩
    · show (1 : Nat) ≤ 3
      omega
    · show (1 : Nat) ≤ (hist ++ [a]).length
      omega
    · intro j hj1 hj2
      show (hist ++ [a]).getD j 0 = a
      have hj1' : (hist ++ [a]).length - 1 ≤ j := hj1
      have hj : j = hist.length := by omega
      subst hj
      exact getD_append_len hist a 0
  · push_neg at hne
    rw [if_neg (by simp [hne])]
    have hmod : (p.ipcc_cntr + 1) % 65536 = p.ipcc_cntr + 1 :=
      Nat.mod_eq_of_lt (by omega)
    by_cases hlt : (p.ipcc_cntr + 1) % 65536 < 4
    · rw [if_pos hlt]
      rw [hmod] at hlt
      refine ⟨?_, ?_, ?_⟩
      · show (p.ipcc_cntr + 1) % 65536 ≤ 3
        omega
      · show (p.ipcc_cntr + 1) % 65536 ≤ (hist ++ [a]).length
        omega
      · intro j hj1 hj2
        show (hist ++ [a]).getD j 0 = a
        have hj1' : (hist ++ [a]).length - (p.ipcc_cntr + 1) % 65536 ≤ j := hj1
        by_cases hjl : j < hist.length
        · rw [getD_append_lt _ _ _ _ hjl, hlast j (by omega) hjl, hne]
        · have hj : j = hist.length := by omega
          subst hj
          exact getD_append_len hist a 0
    · rw [if_neg hlt]
      refine ⟨?_, ?_, ?_⟩
      · show p.ipcc_cntr ≤ 3
        omega
      · show p.ipcc_cntr ≤ (hist ++ [a]).length
        omega
      · intro j hj1 hj2
        show (hist ++ [a]).getD j 0 = a
        have hj1' : (hist ++ [a]).length - p.ipcc_cntr ≤ j := hj1
        by_cases hjl : j < hist.length
        · rw [getD_append_lt _ _ _ _ hjl, hlast j (by omega) hjl, hne]
        · have hj : j = hist.length := by omega
          subst hj
          exact getD_append_len hist a 0

theorem debounceInv_run (l : List Nat) : ∀ (hist : List Nat) (p : TaskIpcc),
    debounceInv hist p → debounceInv (hist ++ l) (debounceRun p l) := by
  induction l with
  | nil => intro hist p h; simpa [debounceRun]
  | cons a t ih =>
    intro hist p h
    have h2 := ih (hist ++ [a]) (debounce_and_update_class p a)
      (debounceInv_step hist p a h)
    simpa [debounceRun, List.append_assoc] using h2

theorem debounce_ipcc_change (p : TaskIpcc) (a : Nat)
    (h : (debounce_and_update_class p a).ipcc ≠ p.ipcc) :
    p.ipcc_tmp = a ∧ CLASS_DEBOUNCER_SKIPS ≤ (p.ipcc_cntr + 1) % 65536 := by
  unfold debounce_and_update_class at h
  by_cases hne : p.ipcc_tmp ≠ a
  · rw [if_pos hne] at h
    simp at h
  · push_neg at hne
    rw [if_neg (by simp [hne])] at h
    by_cases hlt : (p.ipcc_cntr + 1) % 65536 < CLASS_DEBOUNCER_SKIPS
    · rw [if_pos hlt] at h
      simp at h
    · exact ⟨hne, by omega⟩

theorem debounceRun_take_succ (l : List Nat) (p : TaskIpcc) (k : Nat)
    (hk : k < l.length) :
    debounceRun p (l.take (k + 1)) =
      debounce_and_update_class (debounceRun p (l.take k)) (l.getD k 0) := by
  have hget : l[k]? = some (l.getD k 0) := by
    rw [List.getD_eq_getElem?_getD, List.getElem?_eq_getElem hk]
    rfl
  rw [debounceRun, List.take_succ, hget]
  simp [debounceRun, List.foldl_append]

/-! ## Claim C1: task classifier debounce step -/

/-- **C1** (counterexample).  At the state `ipcc = 0`, `ipcc_tmp = 3`,
`ipcc_cntr = 3` and observation `obs = 3` (equal to `ipcc_tmp`), the
source's commit branch does not increment the counter: it stays at 3,
not `3 + 1` as the claim's "increments the counter" requires, and the
resulting state differs from the step described by the spec's words. -/
theorem debounce_claim_counterexample :
    (⟨0, 3, 3⟩ : TaskIpcc).ipcc_tmp = 3 ∧
    (debounce_and_update_class ⟨0, 3, 3⟩ 3).ipcc = 3 ∧
    (debounce_and_update_class ⟨0, 3, 3⟩ 3).ipcc_cntr ≠ (⟨0, 3, 3⟩ : TaskIpcc).ipcc_cntr + 1 ∧
    debounce_and_update_class ⟨0, 3, 3⟩ 3 ≠ debounce_spec_step ⟨0, 3, 3⟩ 3 := by
  decide

/-- **C1** (amended).  One invocation of `debounce_and_update_class` with
observation `obs`: if `obs ≠ ipcc_tmp` it sets `ipcc_cntr = 1` and
`ipcc_tmp = obs`, leaving `ipcc` unchanged; if `obs = ipcc_tmp` it
increments the counter while the incremented value stays below
`CLASS_DEBOUNCER_SKIPS = 4`, and otherwise commits `ipcc = obs` leaving
the counter unchanged; `ipcc_tmp = obs` in either branch.  Consequently
`ipcc` changes only after the same value has been observed on at least 4
consecutive invocations: the sequence `3, 3, 3, 3` from `ipcc = 0` ends
with `ipcc = 3`, and `3, 3, 2, 3` ends with `ipcc = 0`. -/
theorem debounce_amended :
    (∀ p obs, obs ≠ p.ipcc_tmp →
      debounce_and_update_class p obs = { p with ipcc_cntr := 1, ipcc_tmp := obs }) ∧
    (∀ p obs, obs = p.ipcc_tmp →
      (p.ipcc_cntr + 1) % 65536 < CLASS_DEBOUNCER_SKIPS →
      debounce_and_update_class p obs =
        { p with ipcc_cntr := (p.ipcc_cntr + 1) % 65536, ipcc_tmp := obs }) ∧
    (∀ p obs, obs = p.ipcc_tmp →
      CLASS_DEBOUNCER_SKIPS ≤ (p.ipcc_cntr + 1) % 65536 →
      debounce_and_update_class p obs = { p with ipcc := obs, ipcc_tmp := obs }) ∧
    (debounceRun ⟨0, 0, 0⟩ [3, 3, 3, 3]).ipcc = 3 ∧
    (debounceRun ⟨0, 0, 0⟩ [3, 3, 2, 3]).ipcc = 0 ∧
    (∀ (l : List Nat) (p : TaskIpcc) (k : Nat), p.ipcc_cntr = 0 → k < l.length →
      (debounceRun p (l.take (k + 1))).ipcc ≠ (debounceRun p (l.take k)).ipcc →
      3 ≤ k ∧ ∀ j, k - 3 ≤ j → j ≤ k → l.getD j 0 = l.getD k 0) := by
  refine ⟨?_, ?_, ?_, by decide, by decide, ?_⟩
  · intro p obs hne
    have hcond : p.ipcc_tmp ≠ obs := by omega
    unfold debounce_and_update_class
    rw [if_pos hcond]
  · intro p obs heq hlt
    have hcond : ¬(p.ipcc_tmp ≠ obs) := by omega
    unfold debounce_and_update_class
    rw [if_neg hcond, if_pos hlt]
  · intro p obs heq hge
    have hcond : ¬(p.ipcc_tmp ≠ obs) := by omega
    have hcond2 : ¬((p.ipcc_cntr + 1) % 65536 < CLASS_DEBOUNCER_SKIPS) := by omega
    unfold debounce_and_update_class
    rw [if_neg hcond, if_neg hcond2]
  · intro l p k hp hk hchange
    have hinv0 : debounceInv [] p := by
      refine ⟨by omega, by simp [hp], by intro j h1 h2; simp at h2⟩
    have hinv := debounceInv_run (l.take k) [] p hinv0
    rw [List.nil_append] at hinv
    obtain ⟨hc3, hcl, hlast⟩ := hinv
    rw [debounceRun_take_succ l p k hk] at hchange
    have hcond := debounce_ipcc_change _ _ hchange
    obtain ⟨htmp, hcommit⟩ := hcond
    set s := debounceRun p (l.take k) with hs
    have hmod : (s.ipcc_cntr + 1) % 65536 = s.ipcc_cntr + 1 :=
      Nat.mod_eq_of_lt (by omega)
    rw [hmod] at hcommit
    have hcntr : s.ipcc_cntr = 3 := by
      unfold CLASS_DEBOUNCER_SKIPS at hcommit
      omega
    have hlentake : (l.take k).length = k := by
      rw [List.length_take]
      omega
    rw [hlentake] at hcl hlast
    refine ⟨by omega, ?_⟩
    intro j hj1 hj2
    rcases Nat.lt_or_ge j k with hjk | hjk
    · have h1 : (l.take k).getD j 0 = l.getD j 0 := by
        rw [List.getD_eq_getElem?_getD, List.getD_eq_getElem?_getD,
            List.getElem?_take_of_lt hjk]
      rw [← h1, hlast j (by omega) hjk, htmp]
    · have hj : j = k := by omega
      rw [hj]

/-- **C1** (witness).  The amended trace property applied to the
sequence `3, 3, 3, 3` from a fresh task at position `k = 3`, where the
committed class changes from 0 to 3. -/
theorem debounce_amended_witness :
    3 ≤ 3 ∧ ∀ j, 3 - 3 ≤ j → j ≤ 3 →
      [3, 3, 3, 3].getD j (0 : Nat) = [3, 3, 3, 3].getD 3 0 :=
  debounce_amended.2.2.2.2.2 [3, 3, 3, 3] ⟨0, 0, 0⟩ 3 rfl (by decide) (by decide)

/-! ## Claim C2: HFI event-handler deduplication and idempotence -/

/-- **C2**.  When the mirror timestamp (first 8 bytes of `local_table`)
equals the first 8 bytes of `hw_table`, `intel_hfi_process_event` leaves
the instance unchanged, acknowledges nothing and schedules no work — for
any status word.  After a successful (nonzero status, non-duplicate) run
the mirror equals the hardware table at the moment of the copy, so its
timestamp equals the hardware timestamp, and a second run with
`hw_table` unchanged is a no-op for any status word. -/
theorem process_event_dedup_idempotent :
    (∀ (inst : HfiInstanceState) (pkg : Nat),
      inst.local_table.take 8 = inst.hw_table.take 8 →
      intel_hfi_process_event inst pkg = ⟨inst, none, false⟩) ∧
    (∀ (inst : HfiInstanceState) (pkg : Nat), pkg ≠ 0 →
      inst.local_table.take 8 ≠ inst.hw_table.take 8 →
      (intel_hfi_process_event inst pkg).inst.local_table = inst.hw_table ∧
      (intel_hfi_process_event inst pkg).inst.hw_table = inst.hw_table ∧
      (intel_hfi_process_event inst pkg).inst.local_table.take 8 =
        (intel_hfi_process_event inst pkg).inst.hw_table.take 8 ∧
      (∀ pkg' : Nat, intel_hfi_process_event (intel_hfi_process_event inst pkg).inst pkg' =
        ⟨(intel_hfi_process_event inst pkg).inst, none, false⟩)) := by
  constructor
  · intro inst pkg hts
    unfold intel_hfi_process_event
    by_cases hz : pkg = 0
    · rw [if_pos hz]
    · rw [if_neg hz, if_pos hts]
  · intro inst pkg hz hts
    have hrun : intel_hfi_process_event inst pkg =
        ⟨{ inst with local_table := inst.hw_table },
         some (pkg &&& (THERM_STATUS_CLEAR_PKG_MASK &&&
           (2 ^ 64 - 1 - PACKAGE_THERM_STATUS_HFI_UPDATED))), true⟩ := by
      unfold intel_hfi_process_event
      rw [if_neg hz, if_neg hts]
    rw [hrun]
    refine ⟨rfl, rfl, rfl, ?_⟩
    intro pkg'
    unfold intel_hfi_process_event
    by_cases hz' : pkg' = 0
    · rw [if_pos hz']
    · rw [if_neg hz', if_pos rfl]

/-- **C2** (witness).  A concrete instance whose mirror differs from the
hardware table: after one successful run the mirror equals the hardware
table, and a second run is a no-op. -/
theorem process_event_dedup_witness :
    (intel_hfi_process_event ⟨[0, 0, 0, 0, 0, 0, 0, 0, 9], [1, 0, 0, 0, 0, 0, 0, 0, 7]⟩ 3).inst.local_table
      = [1, 0, 0, 0, 0, 0, 0, 0, 7] ∧
    (∀ pkg' : Nat, intel_hfi_process_event
        (intel_hfi_process_event ⟨[0, 0, 0, 0, 0, 0, 0, 0, 9], [1, 0, 0, 0, 0, 0, 0, 0, 7]⟩ 3).inst pkg' =
      ⟨(intel_hfi_process_event ⟨[0, 0, 0, 0, 0, 0, 0, 0, 9], [1, 0, 0, 0, 0, 0, 0, 0, 7]⟩ 3).inst,
       none, false⟩) :=
  ⟨(process_event_dedup_idempotent.2 ⟨[0, 0, 0, 0, 0, 0, 0, 0, 9], [1, 0, 0, 0, 0, 0, 0, 0, 7]⟩ 3
      (by decide) (by decide)).1,
   (process_event_dedup_idempotent.2 ⟨[0, 0, 0, 0, 0, 0, 0, 0, 9], [1, 0, 0, 0, 0, 0, 0, 0, 7]⟩ 3
      (by decide) (by decide)).2.2.2⟩

/-! ## Claim C7: update-worker batching -/

theorem capability_chunks_spec : ∀ (fuel rest : Nat), rest ≤ fuel →
    capability_chunks fuel rest =
      List.replicate (rest / 16) 16 ++ (if rest % 16 = 0 then [] else [rest % 16]) := by
  intro fuel
  induction fuel with
  | zero =>
    intro rest h
    have : rest = 0 := by omega
    subst this
    simp [capability_chunks]
  | succ n ih =>
    intro rest h
    unfold capability_chunks HFI_MAX_THERM_NOTIFY_COUNT
    by_cases h16 : 16 ≤ rest
    · rw [if_pos h16, ih (rest - 16) (by omega)]
      have hdiv : rest / 16 = (rest - 16) / 16 + 1 := Nat.div_eq_sub_div (by omega) h16
      have hmod : rest % 16 = (rest - 16) % 16 := Nat.mod_eq_sub_mod h16
      rw [hdiv, hmod, List.replicate_succ]
      simp
    · rw [if_neg h16]
      have hdiv : rest / 16 = 0 := Nat.div_eq_of_lt (by omega)
      have hmod : rest % 16 = rest := Nat.mod_eq_of_lt (by omega)
      rw [hdiv, hmod]
      by_cases hz : rest = 0
      · subst hz
        simp
      · rw [if_pos hz, if_neg (by omega)]
        simp

/-- **C7**.  One run of the update worker on an instance with
`cpu_count` CPUs emits exactly `cpu_count / 16` capability-event calls of
count `HFI_MAX_THERM_NOTIFY_COUNT = 16` followed by one final call of
count `cpu_count % 16` when the remainder is nonzero, in that order; with
zero CPUs it emits nothing.  In particular 40 CPUs produce exactly the
three calls `16, 16, 8`. -/
theorem update_capabilities_batching :
    (∀ cpu_count : Nat, update_capabilities_emits cpu_count =
      List.replicate (cpu_count / 16) 16 ++
        (if cpu_count % 16 = 0 then [] else [cpu_count % 16])) ∧
    update_capabilities_emits 0 = [] ∧
    update_capabilities_emits 40 = [16, 16, 8] := by
  refine ⟨?_, by decide, by decide⟩
  intro n
  unfold update_capabilities_emits HFI_MAX_THERM_NOTIFY_COUNT
  by_cases hz : n = 0
  · subst hz
    simp
  · rw [if_neg hz]
    by_cases hlt : n < 16
    · rw [if_pos hlt]
      have hdiv : n / 16 = 0 := Nat.div_eq_of_lt hlt
      have hmod : n % 16 = n := Nat.mod_eq_of_lt hlt
      rw [hdiv, hmod, if_neg hz]
      simp
    · rw [if_neg hlt]
      exact capability_chunks_spec n n (Nat.le_refl n)

/-! ## Claim C8: IPC score query -/

/-- **C8**.  For a valid cpu and a class `1 ≤ ipcc ≤ nr_classes` the
query returns `scores[cpu][ipcc - 1]`; the unclassified sentinel 0 is
replaced by `HFI_UNCLASSIFIED_DEFAULT = 1`, so class 0 and class 1 agree
on every cpu; an out-of-range cpu or class yields the invalid-argument
error and a missing score array yields the no-device error. -/
theorem get_ipcc_score_spec :
    (∀ (st : IpccScoreState) (ipcc : Nat) (cpu : Int) (scores : Nat → Nat → Int),
      0 ≤ cpu → cpu < (st.nr_cpu_ids : Int) → 1 ≤ ipcc → ipcc ≤ st.nr_classes →
      st.hfi_ipcc_scores = some scores →
      intel_hfi_get_ipcc_score st ipcc cpu = .ok (scores cpu.toNat (ipcc - 1))) ∧
    (∀ (st : IpccScoreState) (cpu : Int),
      intel_hfi_get_ipcc_score st 0 cpu = intel_hfi_get_ipcc_score st 1 cpu) ∧
    (∀ (st : IpccScoreState) (ipcc : Nat) (cpu : Int),
      (cpu < 0 ∨ (st.nr_cpu_ids : Int) ≤ cpu) →
      intel_hfi_get_ipcc_score st ipcc cpu = .error .einval) ∧
    (∀ (st : IpccScoreState) (ipcc : Nat) (cpu : Int),
      0 ≤ cpu → cpu < (st.nr_cpu_ids : Int) → st.nr_classes < ipcc →
      intel_hfi_get_ipcc_score st ipcc cpu = .error .einval) ∧
    (∀ (st : IpccScoreState) (ipcc : Nat) (cpu : Int),
      0 ≤ cpu → cpu < (st.nr_cpu_ids : Int) → 1 ≤ ipcc → ipcc ≤ st.nr_classes →
      st.hfi_ipcc_scores = none →
      intel_hfi_get_ipcc_score st ipcc cpu = .error .enodev) := by
  refine ⟨?_, ?_, ?_, ?_, ?_⟩
  · intro st ipcc cpu scores h0 hlt h1 hle hscores
    unfold intel_hfi_get_ipcc_score IPC_CLASS_UNCLASSIFIED HFI_UNCLASSIFIED_DEFAULT
    have hip : (if ipcc = 0 then 1 else ipcc) = ipcc := if_neg (by omega)
    rw [if_neg (by omega), hip, if_neg (by omega), hscores]
  · intro st cpu
    unfold intel_hfi_get_ipcc_score IPC_CLASS_UNCLASSIFIED HFI_UNCLASSIFIED_DEFAULT
    norm_num
  · intro st ipcc cpu h
    unfold intel_hfi_get_ipcc_score
    rw [if_pos h]
  · intro st ipcc cpu h0 hlt hgt
    unfold intel_hfi_get_ipcc_score IPC_CLASS_UNCLASSIFIED HFI_UNCLASSIFIED_DEFAULT
    have hip : (if ipcc = 0 then 1 else ipcc) = ipcc := if_neg (by omega)
    rw [if_neg (by omega), hip, if_pos (by omega)]
  · intro st ipcc cpu h0 hlt h1 hle hnone
    unfold intel_hfi_get_ipcc_score IPC_CLASS_UNCLASSIFIED HFI_UNCLASSIFIED_DEFAULT
    have hip : (if ipcc = 0 then 1 else ipcc) = ipcc := if_neg (by omega)
    rw [if_neg (by omega), hip, if_neg (by omega), hnone]

/-- **C8** (witness).  With 4 cpus, 3 classes and the score table
`scores[c][k] = 10 * c + k`, class 2 on cpu 1 yields score 11. -/
theorem get_ipcc_score_witness :
    intel_hfi_get_ipcc_score ⟨4, 3, some (fun c k => 10 * c + k)⟩ 2 1 = .ok 11 :=
  get_ipcc_score_spec.1 ⟨4, 3, some (fun c k => 10 * c + k)⟩ 2 1
    (fun c k => 10 * c + k) (by decide) (by decide) (by decide) (by decide) rfl

/-! ## Claim C3: zblock_alloc argument handling and size-class selection -/

theorem getD_eq_getElem_of_lt {α : Type} (l : List α) (d : α) (i : Nat)
    (h : i < l.length) : l.getD i d = l[i] := by
  rw [List.getD_eq_getElem?_getD, List.getElem?_eq_getElem h]
  rfl

theorem find_block_type_spec (size : Nat) (h1 : 0 < size) (h2 : size ≤ PAGE_SIZE) :
    find_block_type size < block_desc.length ∧
    size ≤ slot_size_of (find_block_type size) ∧
    ∀ t, t < find_block_type size → slot_size_of t < size := by
  have hps : PAGE_SIZE = 4096 := rfl
  have hlast : SLOT_SIZE 7 3 = 4672 := by decide
  have hex : ∃ x ∈ block_desc, (fun d => decide (size ≤ d.slot_size)) x = true := by
    refine ⟨⟨SLOT_SIZE 7 3, 7, 3⟩, by decide, ?_⟩
    simp only [decide_eq_true_eq]
    show size ≤ SLOT_SIZE 7 3
    omega
  have hlt : List.findIdx (fun d => decide (size ≤ d.slot_size)) block_desc <
      block_desc.length := List.findIdx_lt_length_of_exists hex
  have hlt' : find_block_type size < block_desc.length := hlt
  refine ⟨hlt', ?_, ?_⟩
  · have hfound := List.findIdx_getElem (w := hlt)
    unfold slot_size_of
    rw [getD_eq_getElem_of_lt _ _ _ hlt']
    exact of_decide_eq_true hfound
  · intro t ht
    have ht' : t < List.findIdx (fun d => decide (size ≤ d.slot_size)) block_desc := ht
    have htl : t < block_desc.length := Nat.lt_trans ht' hlt
    have hfalse : ¬ (size ≤ block_desc[t].slot_size) :=
      of_decide_eq_false (List.not_of_lt_findIdx ht')
    unfold slot_size_of
    rw [getD_eq_getElem_of_lt _ _ _ htl]
    omega

/-- **C3**.  `zblock_alloc` rejects `size = 0` with `-EINVAL` and
`size > PAGE_SIZE` with `-ENOSPC` (an error distinct from `-ENOMEM`),
leaving the pool unchanged in both cases; for every size in
`(0, PAGE_SIZE]` the selected `block_type` is the smallest index whose
descriptor has `slot_size ≥ size`, and concretely sizes 1, 64, 2048 and
4096 select indices 0, 0, 21 and 28. -/
theorem zblock_alloc_args_and_selection :
    (∀ (pool : ZblockPool) (g : Bool),
      zblock_alloc pool 0 g = (Except.error ZbErr.einval, pool)) ∧
    (∀ (pool : ZblockPool) (g : Bool) (size : Nat), PAGE_SIZE < size →
      zblock_alloc pool size g = (Except.error ZbErr.enospc, pool)) ∧
    ZbErr.enospc ≠ ZbErr.enomem ∧
    (∀ size : Nat, 0 < size → size ≤ PAGE_SIZE →
      find_block_type size < block_desc.length ∧
      size ≤ slot_size_of (find_block_type size) ∧
      ∀ t, t < find_block_type size → slot_size_of t < size) ∧
    (find_block_type 1 = 0 ∧ find_block_type 64 = 0 ∧
     find_block_type 2048 = 21 ∧ find_block_type 4096 = 28) := by
  refine ⟨?_, ?_, by decide, find_block_type_spec, by decide⟩
  · intro pool g
    unfold zblock_alloc
    rw [if_pos rfl]
  · intro pool g size h
    unfold zblock_alloc
    rw [if_neg (by omega), if_pos h]

/-- **C3** (witness).  The selection property applied at size 2048:
index 21 is selected, its slot size 2176 is the first that fits. -/
theorem zblock_alloc_selection_witness :
    find_block_type 2048 < block_desc.length ∧
    2048 ≤ slot_size_of (find_block_type 2048) ∧
    ∀ t, t < find_block_type 2048 → slot_size_of t < 2048 :=
  zblock_alloc_args_and_selection.2.2.2.1 2048 (by decide) (by decide)

/-! ## Claim C4: reclaim on an empty list -/

/-- **C4** (code bug).  On a freshly created pool every block list is
empty; `zblock_reclaim_block` reads the tail of the first (worst
compression) list with `list_last_entry`, which on an empty list yields
a non-NULL pointer into the `block_list` structure itself, so the
`if (!block)` check cannot detect the empty list and the function goes
on to write `block->under_reclaim` through the invalid pointer — the
modelled undefined-behaviour outcome — instead of skipping to the next
type and returning `-EINVAL`. -/
theorem reclaim_empty_list_dereference :
    zblock_reclaim_block zblock_create_pool (fun _ => true) = ReclaimOutcome.ub := by
  decide

/-! ## Claim C5: handle round-trip -/

/-- **C5**.  With `ARRAY_SIZE(block_desc) ≤ PAGE_SIZE >> SLOT_BITS`, for
every page-aligned block base, every `block_type` below
`ARRAY_SIZE(block_desc)` and every slot below `MAX_SLOTS`, decoding the
encoded handle recovers exactly the block base, type and slot, so free,
map and unmap address the same slot through the same handle. -/
theorem handle_roundtrip : ∀ (base bt slot : Nat),
    base % PAGE_SIZE = 0 → bt < block_desc.length → slot < MAX_SLOTS →
    block_desc.length ≤ PAGE_SIZE >>> SLOT_BITS ∧
    handle_to_metadata (metadata_to_handle base bt slot) = (base, bt, slot) := by
  intro base bt slot hal hbt hslot
  refine ⟨by decide, ?_⟩
  have hlen : block_desc.length = 29 := by decide
  rw [hlen] at hbt
  have hms : MAX_SLOTS = 32 := by decide
  have hps : PAGE_SIZE = 4096 := rfl
  rw [hms] at hslot
  unfold handle_to_metadata metadata_to_handle
  rw [hms, hps]
  rw [hps] at hal
  simp only [Prod.mk.injEq]
  omega

/-- **C5** (witness).  Concrete round-trip at base 8192, type 3, slot 5. -/
theorem handle_roundtrip_witness :
    handle_to_metadata (metadata_to_handle 8192 3 5) = (8192, 3, 5) :=
  (handle_roundtrip 8192 3 5 (by decide) (by decide) (by decide)).2

/-! ## zblock counting and membership lemmas -/

theorem countFree_replicate (n : Nat) :
    countFree (List.replicate n SlotState.free) = n := by
  induction n with
  | zero => rfl
  | succ k ih =>
    simp [List.replicate_succ, countFree, ih]
    omega

theorem countFree_set_free (l : List SlotState) (slot : Nat)
    (hne : l.getD slot SlotState.free ≠ SlotState.free) :
    countFree (l.set slot SlotState.free) = countFree l + 1 := by
  induction l generalizing slot with
  | nil => simp [List.getD] at hne
  | cons a t ih =>
    cases slot with
    | zero =>
      rw [List.getD_cons_zero] at hne
      simp [List.set, countFree, hne]
      omega
    | succ s =>
      rw [List.getD_cons_succ] at hne
      simp only [List.set, countFree, ih s hne]
      omega

theorem countFree_set_of_free (l : List SlotState) (slot : Nat) (x : SlotState)
    (hx : x ≠ SlotState.free) (hlt : slot < l.length)
    (hfree : l.getD slot SlotState.free = SlotState.free) :
    countFree (l.set slot x) + 1 = countFree l := by
  induction l generalizing slot with
  | nil => simp at hlt
  | cons a t ih =>
    cases slot with
    | zero =>
      rw [List.getD_cons_zero] at hfree
      simp [List.set, countFree, hfree, hx]
      omega
    | succ s =>
      rw [List.getD_cons_succ] at hfree
      simp only [List.length_cons] at hlt
      simp only [List.set, countFree]
      rw [← ih s (by omega) hfree]
      omega

theorem countFree_set_of_not_free (l : List SlotState) (slot : Nat) (x : SlotState)
    (hx : x ≠ SlotState.free)
    (hne : l.getD slot SlotState.free ≠ SlotState.free) :
    countFree (l.set slot x) = countFree l := by
  induction l generalizing slot with
  | nil => simp [List.getD] at hne
  | cons a t ih =>
    cases slot with
    | zero =>
      rw [List.getD_cons_zero] at hne
      simp [List.set, countFree, hne, hx]
    | succ s =>
      rw [List.getD_cons_succ] at hne
      simp only [List.set, countFree, ih s hne]

theorem findFreeSlot_spec (l : List SlotState) (h : 0 < countFree l) :
    findFreeSlot l < l.length ∧
    l.getD (findFreeSlot l) SlotState.free = SlotState.free := by
  induction l with
  | nil => simp [countFree] at h
  | cons a t ih =>
    by_cases ha : a = SlotState.free
    · subst ha
      have h0 : findFreeSlot (SlotState.free :: t) = 0 := by
        simp [findFreeSlot, List.findIdx_cons]
      rw [h0]
      exact ⟨by simp, by rw [List.getD_cons_zero]⟩
    · have hc : 0 < countFree t := by
        simpa [countFree, ha] using h
      obtain ⟨ih1, ih2⟩ := ih hc
      have hbeq : (a == SlotState.free) = false := by simp [ha]
      have hfi : findFreeSlot (a :: t) = findFreeSlot t + 1 := by
        simp [findFreeSlot, List.findIdx_cons, hbeq]
      rw [hfi]
      refine ⟨by simpa using Nat.succ_lt_succ ih1, ?_⟩
      rw [List.getD_cons_succ]
      exact ih2

theorem mem_of_getLast? {α : Type} {l : List α} {a : α}
    (h : l.getLast? = some a) : a ∈ l := by
  cases l with
  | nil => simp at h
  | cons x xs =>
    rw [List.getLast?_eq_getLast _ (by simp)] at h
    have h2 := Option.some.inj h
    exact h2 ▸ List.getLast_mem (by simp)

theorem mem_updateBlock {bl : BlockList} {base : Nat} {b' : ZblockBlock}
    {q : Nat × ZblockBlock} (h : q ∈ (updateBlock bl base b').blocks) :
    (q ∈ bl.blocks ∧ q.1 ≠ base) ∨ (q.1 = base ∧ q.2 = b') := by
  unfold updateBlock at h
  rw [List.mem_map] at h
  obtain ⟨p, hp, heq⟩ := h
  by_cases hb : p.1 = base
  · right
    rw [if_pos hb] at heq
    rw [← heq]
    exact ⟨hb, rfl⟩
  · left
    rw [if_neg hb] at heq
    subst heq
    exact ⟨hp, hb⟩

theorem findBlock_mem {bl : BlockList} {base : Nat} {b : ZblockBlock}
    (h : findBlock bl base = some b) : (base, b) ∈ bl.blocks := by
  unfold findBlock at h
  cases hf : bl.blocks.find? (fun p => p.1 == base) with
  | none => rw [hf] at h; simp at h
  | some pr =>
    rw [hf] at h
    simp only [Option.map_some'] at h
    have hmem := List.mem_of_find?_eq_some hf
    have hpr1 : pr.1 = base := by simpa using List.find?_some hf
    have hpr : pr = (base, b) := by
      cases pr
      simp only [Option.some.injEq] at h
      simp_all
    rwa [hpr] at hmem

theorem cache_find_block_spec {bl : BlockList} {base : Nat} {b : ZblockBlock}
    (h : cache_find_block bl = some (base, b)) :
    findBlock bl base = some b ∧ b.free_slots ≠ 0 := by
  unfold cache_find_block at h
  obtain ⟨e, _, he⟩ := List.exists_of_findSome?_eq_some h
  cases e with
  | none => simp at he
  | some base' =>
    simp only [] at he
    cases hf : findBlock bl base' with
    | none => rw [hf] at he; simp at he
    | some b0 =>
      rw [hf] at he
      simp only [] at he
      by_cases hz : b0.free_slots ≠ 0
      · rw [if_pos hz] at he
        simp only [Option.some.injEq, Prod.mk.injEq] at he
        obtain ⟨h1, h2⟩ := he
        subst h1
        subst h2
        exact ⟨hf, hz⟩
      · rw [if_neg hz] at he
        simp at he

theorem cache_insert_blocks (bl : BlockList) (base : Nat) :
    (cache_insert_block bl base).blocks = bl.blocks := rfl

theorem setListAt_length (pool : ZblockPool) (bt : Nat) (bl : BlockList) :
    (setListAt pool bt bl).block_lists.length = pool.block_lists.length :=
  List.length_set pool.block_lists bt bl

theorem listAt_setListAt_self (pool : ZblockPool) (bt : Nat) (bl : BlockList)
    (h : bt < pool.block_lists.length) : listAt (setListAt pool bt bl) bt = bl := by
  unfold listAt setListAt
  rw [List.getD_eq_getElem?_getD]
  show (pool.block_lists.set bt bl)[bt]?.getD emptyBlockList = bl
  rw [List.getElem?_set_self', List.getElem?_eq_getElem h]
  rfl

theorem listAt_setListAt_ne (pool : ZblockPool) (bt bt' : Nat) (bl : BlockList)
    (h : bt ≠ bt') : listAt (setListAt pool bt bl) bt' = listAt pool bt' := by
  unfold listAt setListAt
  rw [List.getD_eq_getElem?_getD, List.getD_eq_getElem?_getD]
  show (pool.block_lists.set bt bl)[bt']?.getD emptyBlockList = _
  rw [List.getElem?_set_ne h]

theorem poolWf_setListAt {pool : ZblockPool} {bt : Nat} {bl : BlockList}
    (hw : poolWf pool) (hbt : bt < block_desc.length)
    (hl : ∀ p ∈ bl.blocks, blockWf bt p.2) : poolWf (setListAt pool bt bl) := by
  obtain ⟨hlen, hall⟩ := hw
  refine ⟨by rw [setListAt_length]; exact hlen, ?_⟩
  intro bt' hbt' q hq
  by_cases he : bt = bt'
  · subst he
    rw [listAt_setListAt_self pool bt bl (by omega)] at hq
    exact hl q hq
  · rw [listAt_setListAt_ne pool bt bt' bl he] at hq
    exact hall bt' hbt' q hq

theorem slots_per_block_pos : ∀ bt, bt < block_desc.length →
    0 < slots_per_block_of bt := by decide

theorem blockWf_alloc_step (bt : Nat) (b : ZblockBlock) (hwf : blockWf bt b)
    (hfs : b.free_slots ≠ 0) :
    blockWf bt { b with
      free_slots := b.free_slots - 1,
      slot_info := b.slot_info.set (findFreeSlot b.slot_info) SlotState.occupied } := by
  obtain ⟨hlen, hcnt⟩ := hwf
  have hpos : 0 < countFree b.slot_info := by omega
  obtain ⟨hflt, hfree⟩ := findFreeSlot_spec b.slot_info hpos
  constructor
  · show (b.slot_info.set (findFreeSlot b.slot_info) SlotState.occupied).length = _
    rw [List.length_set]
    exact hlen
  · show b.free_slots - 1 =
      countFree (b.slot_info.set (findFreeSlot b.slot_info) SlotState.occupied)
    have hc := countFree_set_of_free b.slot_info (findFreeSlot b.slot_info)
      SlotState.occupied (by decide) hflt hfree
    omega

/-! ## Preservation of the counting invariant by each pool operation -/

theorem poolWf_alloc_slot_in {pool : ZblockPool} {bt base : Nat} {b : ZblockBlock}
    (hw : poolWf pool) (hbt : bt < block_desc.length)
    (hwf : blockWf bt b) (hfs : b.free_slots ≠ 0) :
    poolWf (alloc_slot_in pool bt base b).2 := by
  have hr : (alloc_slot_in pool bt base b).2 =
      setListAt pool bt (updateBlock (listAt pool bt) base
        { b with
          free_slots := b.free_slots - 1,
          slot_info := b.slot_info.set (findFreeSlot b.slot_info) SlotState.occupied }) := rfl
  rw [hr]
  apply poolWf_setListAt hw hbt
  intro q hq
  rcases mem_updateBlock hq with ⟨hold, _⟩ | ⟨_, hnew⟩
  · exact hw.2 bt hbt q hold
  · rw [hnew]
    exact blockWf_alloc_step bt b hwf hfs

theorem poolWf_alloc (pool : ZblockPool) (size : Nat) (g : Bool)
    (hw : poolWf pool) : poolWf (zblock_alloc pool size g).2 := by
  unfold zblock_alloc
  by_cases h0 : size = 0
  · rw [if_pos h0]
    exact hw
  · rw [if_neg h0]
    by_cases h1 : PAGE_SIZE < size
    · rw [if_pos h1]
      exact hw
    · rw [if_neg h1]
      simp only []
      obtain ⟨hbt, -, -⟩ := find_block_type_spec size (by omega) (by omega)
      cases hcf : cache_find_block (listAt pool (find_block_type size)) with
      | some pr =>
        obtain ⟨base, b⟩ := pr
        show poolWf (alloc_slot_in pool (find_block_type size) base b).2
        obtain ⟨hfb, hfs⟩ := cache_find_block_spec hcf
        have hwfb : blockWf (find_block_type size) b :=
          hw.2 (find_block_type size) hbt (base, b) (findBlock_mem hfb)
        exact poolWf_alloc_slot_in hw hbt hwfb hfs
      | none =>
        show poolWf (if g = true then
          alloc_slot_in (alloc_block pool (find_block_type size)).2.2 (find_block_type size)
            (alloc_block pool (find_block_type size)).1
            (alloc_block pool (find_block_type size)).2.1
          else (Except.error ZbErr.enomem, pool)).2
        cases g with
        | false => exact hw
        | true =>
          show poolWf (alloc_slot_in (alloc_block pool (find_block_type size)).2.2
            (find_block_type size) (alloc_block pool (find_block_type size)).1
            (alloc_block pool (find_block_type size)).2.1).2
          have hspb := slots_per_block_pos (find_block_type size) hbt
          have hnbwf : blockWf (find_block_type size)
              (alloc_block pool (find_block_type size)).2.1 := by
            constructor
            · show (List.replicate (slots_per_block_of (find_block_type size))
                SlotState.free).length = _
              rw [List.length_replicate]
            · show slots_per_block_of (find_block_type size) =
                countFree (List.replicate (slots_per_block_of (find_block_type size))
                  SlotState.free)
              rw [countFree_replicate]
          have hp1 : poolWf (alloc_block pool (find_block_type size)).2.2 := by
            have hstep : poolWf (setListAt pool (find_block_type size)
                { cache_insert_block
                    { listAt pool (find_block_type size) with
                      blocks := (pool.next_base,
                        (⟨List.replicate (slots_per_block_of (find_block_type size))
                          SlotState.free,
                          slots_per_block_of (find_block_type size), false⟩ : ZblockBlock)) ::
                        (listAt pool (find_block_type size)).blocks }
                    pool.next_base with
                  block_count :=
                    (cache_insert_block
                      { listAt pool (find_block_type size) with
                        blocks := (pool.next_base,
                          (⟨List.replicate (slots_per_block_of (find_block_type size))
                            SlotState.free,
                            slots_per_block_of (find_block_type size), false⟩ : ZblockBlock)) ::
                          (listAt pool (find_block_type size)).blocks }
                      pool.next_base).block_count + 1 }) := by
              apply poolWf_setListAt hw hbt
              intro q hq
              rw [show (∀ x, x ∈ ({ cache_insert_block
                  { listAt pool (find_block_type size) with
                    blocks := (pool.next_base,
                      (⟨List.replicate (slots_per_block_of (find_block_type size))
                        SlotState.free,
                        slots_per_block_of (find_block_type size), false⟩ : ZblockBlock)) ::
                      (listAt pool (find_block_type size)).blocks }
                  pool.next_base with
                block_count := (cache_insert_block
                  { listAt pool (find_block_type size) with
                    blocks := (pool.next_base,
                      (⟨List.replicate (slots_per_block_of (find_block_type size))
                        SlotState.free,
                        slots_per_block_of (find_block_type size), false⟩ : ZblockBlock)) ::
                      (listAt pool (find_block_type size)).blocks }
                  pool.next_base).block_count + 1 } : BlockList).blocks ↔
                x ∈ (pool.next_base,
                  (⟨List.replicate (slots_per_block_of (find_block_type size))
                    SlotState.free,
                    slots_per_block_of (find_block_type size), false⟩ : ZblockBlock)) ::
                  (listAt pool (find_block_type size)).blocks) from fun _ => Iff.rfl] at hq
              rcases List.mem_cons.mp hq with hnew | hold
              · rw [hnew]
                exact hnbwf
              · exact hw.2 (find_block_type size) hbt q hold
            exact hstep
          refine poolWf_alloc_slot_in hp1 hbt hnbwf ?_
          show slots_per_block_of (find_block_type size) ≠ 0
          omega

theorem blocks_cache_case (i : Option Nat) (bl : BlockList) (base : Nat) :
    (match i with
      | none => cache_insert_block bl base
      | some _ => bl).blocks = bl.blocks := by
  cases i <;> rfl

theorem poolWf_update_nonfree {pool : ZblockPool} {bt base slot : Nat} {b : ZblockBlock}
    (x : SlotState) (hw : poolWf pool) (hbt : bt < block_desc.length)
    (hfb : findBlock (listAt pool bt) base = some b)
    (hnf : b.slot_info.getD slot SlotState.free ≠ SlotState.free)
    (hx : x ≠ SlotState.free) :
    poolWf (setListAt pool bt (updateBlock (listAt pool bt) base
      { b with slot_info := b.slot_info.set slot x })) := by
  apply poolWf_setListAt hw hbt
  intro q hq
  rcases mem_updateBlock hq with ⟨hold, -⟩ | ⟨-, hnew⟩
  · exact hw.2 bt hbt q hold
  · rw [hnew]
    obtain ⟨hlen, hcnt⟩ := hw.2 bt hbt (base, b) (findBlock_mem hfb)
    constructor
    · show (b.slot_info.set slot x).length = _
      rw [List.length_set]
      exact hlen
    · show b.free_slots = countFree (b.slot_info.set slot x)
      rw [countFree_set_of_not_free b.slot_info slot x hx hnf]
      exact hcnt

theorem poolWf_map (pool : ZblockPool) (h : Nat) (hw : poolWf pool)
    (hv : validHandle pool h) :
    ∀ p', zblock_map pool h = some p' → poolWf p' := by
  intro p' hp'
  obtain ⟨hbt, b0, hfb, hslot, hnf⟩ := hv
  simp only [zblock_map] at hp'
  rw [hfb] at hp'
  simp only [Option.some.injEq] at hp'
  rw [← hp']
  exact poolWf_update_nonfree SlotState.mapped hw hbt hfb hnf (by decide)

theorem poolWf_unmap (pool : ZblockPool) (h : Nat) (hw : poolWf pool)
    (hv : validHandle pool h) :
    ∀ p', zblock_unmap pool h = some p' → poolWf p' := by
  intro p' hp'
  obtain ⟨hbt, b0, hfb, hslot, hnf⟩ := hv
  simp only [zblock_unmap] at hp'
  rw [hfb] at hp'
  simp only [Option.some.injEq] at hp'
  rw [← hp']
  exact poolWf_update_nonfree SlotState.unmapped hw hbt hfb hnf (by decide)

theorem poolWf_free (pool : ZblockPool) (h : Nat) (hw : poolWf pool)
    (hv : validHandle pool h) :
    ∀ p', zblock_free pool h = some p' → poolWf p' := by
  intro p' hp'
  obtain ⟨hbt, b0, hfb, hslot, hnf⟩ := hv
  have hwfb : blockWf (handle_to_metadata h).2.1 b0 :=
    hw.2 _ hbt ((handle_to_metadata h).1, b0) (findBlock_mem hfb)
  simp only [zblock_free] at hp'
  rw [hfb] at hp'
  simp only [] at hp'
  split at hp'
  · -- under_reclaim: the pool is returned unchanged
    rw [← Option.some.inj hp']
    exact hw
  · split at hp'
    · -- all slots free: the block is unlinked and its pages returned
      rw [← Option.some.inj hp']
      apply poolWf_setListAt hw hbt
      intro q hq
      obtain ⟨hq1, hq2⟩ := List.mem_filter.mp hq
      have hqne : q.1 ≠ (handle_to_metadata h).1 := by simpa using hq2
      rcases mem_updateBlock hq1 with ⟨hold, -⟩ | ⟨heq1, -⟩
      · exact hw.2 _ hbt q hold
      · exact absurd heq1 hqne
    · -- some slots remain: the slot is marked FREE
      rw [← Option.some.inj hp']
      apply poolWf_setListAt hw hbt
      intro q hq
      rcases mem_updateBlock hq with ⟨hold2, hne2⟩ | ⟨-, heq2⟩
      · rw [blocks_cache_case] at hold2
        rcases mem_updateBlock hold2 with ⟨hold3, -⟩ | ⟨heq3, -⟩
        · exact hw.2 _ hbt q hold3
        · exact absurd heq3 hne2
      · rw [heq2]
        obtain ⟨hlen, hcnt⟩ := hwfb
        constructor
        · show (b0.slot_info.set (handle_to_metadata h).2.2 SlotState.free).length = _
          rw [List.length_set]
          exact hlen
        · show b0.free_slots + 1 =
            countFree (b0.slot_info.set (handle_to_metadata h).2.2 SlotState.free)
          rw [countFree_set_free b0.slot_info (handle_to_metadata h).2.2 hnf]
          omega

theorem evict_slots_wf (ev : Nat → Bool) (bt base : Nat) :
    ∀ (fuel slot : Nat) (b : ZblockBlock) (r : Nat),
      blockWf bt b → slot + fuel = slots_per_block_of bt →
      blockWf bt (evict_slots ev bt base slot fuel b r).1 := by
  intro fuel
  induction fuel with
  | zero =>
    intro slot b r hwf _
    exact hwf
  | succ n ih =>
    intro slot b r hwf hsf
    unfold evict_slots
    by_cases hst : b.slot_info.getD slot SlotState.free = SlotState.occupied ∨
        b.slot_info.getD slot SlotState.free = SlotState.unmapped
    · rw [if_pos hst]
      by_cases hev : ev (metadata_to_handle base bt slot) = true
      · rw [if_pos hev]
        apply ih
        · obtain ⟨hlen, hcnt⟩ := hwf
          have hnfs : b.slot_info.getD slot SlotState.free ≠ SlotState.free := by
            rcases hst with heq | heq <;> rw [heq] <;> decide
          constructor
          · show (b.slot_info.set slot SlotState.free).length = _
            rw [List.length_set]
            exact hlen
          · show b.free_slots + 1 = countFree (b.slot_info.set slot SlotState.free)
            rw [countFree_set_free b.slot_info slot hnfs]
            omega
        · omega
      · rw [if_neg hev]
        exact hwf
    · rw [if_neg hst]
      exact ih (slot + 1) b r hwf (by omega)

theorem poolWf_reclaim_iter (ev : Nat → Bool) :
    ∀ (k : Nat) (pool : ZblockPool), k ≤ block_desc.length → poolWf pool →
      ∀ r p', zblock_reclaim_iter pool ev k = ReclaimOutcome.ok r p' → poolWf p' := by
  intro k
  induction k with
  | zero =>
    intro pool _ hw r p' heq
    simp only [zblock_reclaim_iter, ReclaimOutcome.ok.injEq] at heq
    rw [← heq.2]
    exact hw
  | succ n ih =>
    intro pool hk hw r p' heq
    simp only [zblock_reclaim_iter] at heq
    split at heq
    · exact absurd heq (by simp)
    · rename_i pr hlast
      split at heq
      · exact ih pool (by omega) hw r p' heq
      · rename_i hic
        have hbtn : n < block_desc.length := by omega
        have hmem : pr ∈ (listAt pool n).blocks := mem_of_getLast? hlast
        have hwfb : blockWf n pr.2 := hw.2 n hbtn pr hmem
        have hwfb0 : blockWf n { pr.2 with under_reclaim := true } := hwfb
        have hwfb' : blockWf n
            (evict_slots ev n pr.1 0 (slots_per_block_of n)
              { pr.2 with under_reclaim := true } 0).1 :=
          evict_slots_wf ev n pr.1 (slots_per_block_of n) 0
            { pr.2 with under_reclaim := true } 0 hwfb0 (by omega)
        split at heq
        · -- partial: clear under_reclaim, reinsert into the cache
          simp only [ReclaimOutcome.ok.injEq] at heq
          rw [← heq.2]
          apply poolWf_setListAt hw hbtn
          intro q hq
          rw [show (cache_insert_block (updateBlock (listAt pool n) pr.1
              { (evict_slots ev n pr.1 0 (slots_per_block_of n)
                  { pr.2 with under_reclaim := true } 0).1 with
                under_reclaim := false }) pr.1).blocks =
              (updateBlock (listAt pool n) pr.1
              { (evict_slots ev n pr.1 0 (slots_per_block_of n)
                  { pr.2 with under_reclaim := true } 0).1 with
                under_reclaim := false }).blocks from rfl] at hq
          rcases mem_updateBlock hq with ⟨hold, -⟩ | ⟨-, hnew⟩
          · exact hw.2 n hbtn q hold
          · rw [hnew]
            exact hwfb'
        · -- fully empty: the block is unlinked and its pages returned
          simp only [ReclaimOutcome.ok.injEq] at heq
          rw [← heq.2]
          apply poolWf_setListAt hw hbtn
          intro q hq
          obtain ⟨hq1, hq2⟩ := List.mem_filter.mp hq
          have hqne : q.1 ≠ pr.1 := by simpa using hq2
          rcases mem_updateBlock hq1 with ⟨hold, -⟩ | ⟨heq1, -⟩
          · exact hw.2 n hbtn q hold
          · exact absurd heq1 hqne

/-! ## Claim C6: free-slot counting invariant ZB-I1 -/

/-- **C6** (ZB-I1).  A freshly created pool satisfies the counting
invariant, and every completed pool operation — alloc, free of a valid
previously-allocated slot, map, unmap, or a reclaim pass — preserves it:
afterwards every block of every list has `free_slots` equal to the
number of `FREE` entries of its `slot_info` array (whose modelled length
is `slots_per_block`, i.e. the indices below `slots_per_block`). -/
theorem zb_i1_invariant :
    poolWf zblock_create_pool ∧
    ∀ (pool : ZblockPool) (op : PoolOp) (pool' : ZblockPool),
      poolWf pool → validOp pool op → applyOp pool op = some pool' → poolWf pool' := by
  refine ⟨by decide, ?_⟩
  intro pool op pool' hw hv happ
  cases op with
  | alloc size g =>
    simp only [applyOp, Option.some.injEq] at happ
    rw [← happ]
    exact poolWf_alloc pool size g hw
  | free h => exact poolWf_free pool h hw hv pool' happ
  | map h => exact poolWf_map pool h hw hv pool' happ
  | unmap h => exact poolWf_unmap pool h hw hv pool' happ
  | reclaim ev =>
    simp only [applyOp] at happ
    cases hrc : zblock_reclaim_block pool ev with
    | ub => rw [hrc] at happ; simp at happ
    | ok r p =>
      rw [hrc] at happ
      simp only [Option.some.injEq] at happ
      rw [← happ]
      exact poolWf_reclaim_iter ev block_desc.length pool (Nat.le_refl _) hw r p hrc

/-- **C6** (witness).  The invariant holds after allocating a 64-byte
slot from a fresh pool. -/
theorem zb_i1_invariant_witness :
    poolWf ((applyOp zblock_create_pool (PoolOp.alloc 64 true)).getD zblock_create_pool) :=
  zb_i1_invariant.2 zblock_create_pool (PoolOp.alloc 64 true)
    ((applyOp zblock_create_pool (PoolOp.alloc 64 true)).getD zblock_create_pool)
    (by decide) trivial (by decide)

/-! ## Claim C9: free on a block under reclaim is a no-op -/

/-- **C9**.  For every handle whose decoded block has
`under_reclaim = true`, `zblock_free` returns immediately with the whole
pool unchanged (no slot state, free count, list, cache or block count
changes, and no pages are returned), and a second free of the same
handle during reclaim is likewise a no-op. -/
theorem zblock_free_under_reclaim : ∀ (pool : ZblockPool) (handle : Nat) (b : ZblockBlock),
    findBlock (listAt pool (handle_to_metadata handle).2.1)
      (handle_to_metadata handle).1 = some b →
    b.under_reclaim = true →
    zblock_free pool handle = some pool ∧
    (zblock_free pool handle).bind (fun p => zblock_free p handle) = some pool := by
  intro pool handle b hfb hur
  have h1 : zblock_free pool handle = some pool := by
    simp only [zblock_free]
    rw [hfb]
    simp [hur]
  refine ⟨h1, ?_⟩
  rw [h1]
  simpa using h1

/-- **C9** (witness).  Freeing slot 3 of the reclaiming block twice
leaves the concrete pool unchanged both times. -/
theorem zblock_free_under_reclaim_witness :
    zblock_free reclaimingPool (metadata_to_handle 4096 0 3) = some reclaimingPool ∧
    (zblock_free reclaimingPool (metadata_to_handle 4096 0 3)).bind
      (fun p => zblock_free p (metadata_to_handle 4096 0 3)) = some reclaimingPool :=
  zblock_free_under_reclaim reclaimingPool (metadata_to_handle 4096 0 3)
    reclaimingBlock (by decide) rfl

/-! ## Claim C10: the first-FREE scan stays in bounds -/

/-- **C10**.  In `zblock_alloc`'s slot-assignment step, for every block
that satisfies the ZB-I1 counting invariant and has `free_slots > 0`,
the linear first-`FREE` scan terminates at an index strictly below
`slots_per_block` (and that index holds a `FREE` slot), so the write
marking `slot_info[slot]` `OCCUPIED` is within the slot array's valid
range; the scan has no bounds-failure branch, so this precondition is
what makes the write in-bounds. -/
theorem alloc_scan_in_bounds : ∀ (bt : Nat) (b : ZblockBlock),
    bt < block_desc.length → blockWf bt b → 0 < b.free_slots →
    findFreeSlot b.slot_info < slots_per_block_of bt ∧
    b.slot_info.getD (findFreeSlot b.slot_info) SlotState.free = SlotState.free := by
  intro bt b hbt hwf hfs
  obtain ⟨hlen, hcnt⟩ := hwf
  have hpos : 0 < countFree b.slot_info := by omega
  obtain ⟨h1, h2⟩ := findFreeSlot_spec b.slot_info hpos
  exact ⟨by omega, h2⟩

/-- **C10** (witness).  On a type-28 block with one occupied and six
free slots the scan stops at index 1, inside the 7-slot array. -/
theorem alloc_scan_in_bounds_witness :
    findFreeSlot sampleBlock.slot_info < slots_per_block_of 28 ∧
    sampleBlock.slot_info.getD (findFreeSlot sampleBlock.slot_info) SlotState.free =
      SlotState.free :=
  alloc_scan_in_bounds 28 sampleBlock (by decide) (by decide) (by decide)
